import Mathlib

/-!
Verification of the skylearn code-execution and grading core.

This file is a shallow embedding of the grading engine of the repository:

* `compareOutputs`, `testCode` from `server/services/code-execution.service.ts`
  (`CodeExecutionService`),
* `executeCode` from the same service, with filesystem/process interaction
  modelled by an explicit environment and an effect trace,
* `submitCodingTest`, `submitMCQTest` from `server/services/test.service.ts`
  (`TestService`),
* the in-memory `SubmissionModel` store from `server/models/submission.model.ts`,
  modelled as a state machine over store operations.

JavaScript numbers are idealised as exact rationals (`ℚ`), extended with
`NaN`/`Infinity` where the code can actually produce them (`JsNum`); JSON
values are the inductive `Json` (no `undefined`, as produced by `JSON.parse`).
-/

namespace Skylearn

/-- JSON-like runtime values, as produced by `JSON.parse`.  Numbers are
idealised as integers (the test payloads in the repository are integral);
objects are ordered key/value lists, mirroring JS object insertion order. -/
inductive Json where
  | null : Json
  | bool (b : Bool) : Json
  | num (n : Int) : Json
  | str (s : String) : Json
  | arr (elems : List Json) : Json
  | obj (fields : List (String × Json)) : Json

mutual

/-- Size measure on `Json` that ignores key strings (used for termination of
`compareOutputs`; the default `sizeOf` would count the synthesized index-key
strings of the array-as-object view). -/
def jsize : Json → Nat
  | .null => 1
  | .bool _ => 1
  | .num _ => 1
  | .str _ => 1
  | .arr xs => 1 + jsizeL xs
  | .obj fs => 1 + jsizeF fs

def jsizeL : List Json → Nat
  | [] => 0
  | x :: xs => 1 + jsize x + jsizeL xs

def jsizeF : List (String × Json) → Nat
  | [] => 0
  | kv :: fs => 1 + jsize kv.2 + jsizeF fs

end

/-- JS `typeof x === 'object' && x !== null`: arrays and objects qualify,
`null` does not (despite `typeof null === 'object'`, the code guards it). -/
def isObjLike : Json → Bool
  | .arr _ => true
  | .obj _ => true
  | _ => false

/-- JS strict equality `===` restricted to the cases reachable in the final
branch of `compareOutputs` (at most one side is array/object; `===` never
coerces, and distinct runtime types compare unequal). -/
def strictEq : Json → Json → Bool
  | .null, .null => true
  | .bool a, .bool b => a == b
  | .num a, .num b => a == b
  | .str a, .str b => a == b
  | _, _ => false

/-- Index-string entries of an array, as exposed by `Object.keys`:
element `i` appears under the key `toString i`. -/
def arrEntries : Nat → List Json → List (String × Json)
  | _, [] => []
  | i, x :: xs => (toString i, x) :: arrEntries (i + 1) xs

/-- The own enumerable entries of a value, as seen by `Object.keys` /
property indexing: an array exposes its elements under the index strings
"0", "1", …; an object exposes its fields; primitives expose nothing. -/
def jsEntries : Json → List (String × Json)
  | .arr xs => arrEntries 0 xs
  | .obj fs => fs
  | _ => []

theorem lookup_mem {k : String} {v : Json} :
    ∀ {l : List (String × Json)}, l.lookup k = some v → (k, v) ∈ l := by
  intro l
  induction l with
  | nil => intro h; simp [List.lookup] at h
  | cons kv rest ih =>
    obtain ⟨k1, v1⟩ := kv
    intro h
    rw [List.lookup] at h
    by_cases hk : k = k1
    · subst hk
      simp at h
      simp [h]
    · have hk' : (k == k1) = false := by simpa using hk
      rw [hk'] at h
      exact List.mem_cons_of_mem _ (ih h)

theorem jsize_lookup {k : String} {v : Json} :
    ∀ {l : List (String × Json)}, l.lookup k = some v → jsize v < jsizeF l := by
  intro l
  induction l with
  | nil => intro h; simp [List.lookup] at h
  | cons kv rest ih =>
    obtain ⟨k1, v1⟩ := kv
    intro h
    rw [List.lookup] at h
    by_cases hk : k = k1
    · subst hk
      simp at h
      subst h
      simp [jsizeF]
      omega
    · have hk' : (k == k1) = false := by simpa using hk
      rw [hk'] at h
      have := ih h
      simp [jsizeF]
      omega

theorem jsizeF_arrEntries (xs : List Json) :
    ∀ n, jsizeF (arrEntries n xs) = jsizeL xs := by
  induction xs with
  | nil => intro n; simp [arrEntries, jsizeF, jsizeL]
  | cons x rest ih => intro n; simp [arrEntries, jsizeF, jsizeL, ih]

theorem jsizeF_jsEntries_lt {a : Json} (h : isObjLike a = true) :
    jsizeF (jsEntries a) < jsize a := by
  cases a with
  | arr xs => simp [jsEntries, jsize, jsizeF_arrEntries]
  | obj fs => simp [jsEntries, jsize]
  | null => simp [isObjLike] at h
  | bool b => simp [isObjLike] at h
  | num n => simp [isObjLike] at h
  | str s => simp [isObjLike] at h

mutual

/-- `CodeExecutionService.compareOutputs`: recursive comparison of an actual
against an expected output.  Both-array pairs are compared by length and
position; otherwise, if both sides are object-like (`typeof === 'object'`,
non-null — which includes an array paired with a plain object), they are
compared through their own enumerable entries; otherwise JS `===`. -/
def compareOutputs : Json → Json → Bool
  | .arr xs, .arr ys =>
    xs.length == ys.length && compareElems xs ys
  | a, b =>
    if hab : isObjLike a && isObjLike b then
      (jsEntries a).length == (jsEntries b).length &&
        compareFields (jsEntries a) (jsEntries b)
    else
      strictEq a b
termination_by a b => jsize a + jsize b
decreasing_by
  · simp [jsize]; omega
  · have ha : isObjLike a = true := by
      revert hab; cases isObjLike a <;> simp
    have hb : isObjLike b = true := by
      revert hab; cases isObjLike b <;> simp
    have h1 := jsizeF_jsEntries_lt ha
    have h2 := jsizeF_jsEntries_lt hb
    omega

/-- `actual.every((val, idx) => compareOutputs(val, expected[idx]))`,
run only after the length check. -/
def compareElems : List Json → List Json → Bool
  | x :: xs, y :: ys => compareOutputs x y && compareElems xs ys
  | _, _ => true
termination_by xs ys => jsizeL xs + jsizeL ys
decreasing_by
  · simp [jsizeL]; omega
  · simp [jsizeL]; omega

/-- `actualKeys.every(key => compareOutputs(actual[key], expected[key]))`:
indexing a key absent from `expected` yields `undefined`, which no JSON
value is `===` to. -/
def compareFields : List (String × Json) → List (String × Json) → Bool
  | [], _ => true
  | kv :: rest, be =>
    (match h : be.lookup kv.1 with
     | some v => compareOutputs kv.2 v
     | none => false) && compareFields rest be
termination_by ae be => jsizeF ae + jsizeF be
decreasing_by
  · have := jsize_lookup h
    simp [jsizeF]; omega
  · simp [jsizeF] <;> omega

end

theorem compareElems_iff : ∀ (xs ys : List Json), xs.length = ys.length →
    (compareElems xs ys = true ↔
      ∀ (i : Nat) (hi : i < xs.length) (hj : i < ys.length),
        compareOutputs (xs.get ⟨i, hi⟩) (ys.get ⟨i, hj⟩) = true)
  | [], [], _ => by simp [compareElems]
  | [], _ :: _, h => by simp at h
  | _ :: _, [], h => by simp at h
  | x :: xs, y :: ys, h => by
    rw [compareElems, Bool.and_eq_true,
      compareElems_iff xs ys (by simpa using h)]
    constructor
    · rintro ⟨h1, h2⟩ i hi hj
      cases i with
      | zero => exact h1
      | succ n => exact h2 n (by simpa using hi) (by simpa using hj)
    · intro hall
      exact ⟨hall 0 (by simp) (by simp),
        fun n hn hm => hall (n + 1) (by simpa using hn) (by simpa using hm)⟩

theorem compareOutputs_arr_iff (xs ys : List Json) :
    compareOutputs (.arr xs) (.arr ys) = true ↔
      (xs.length = ys.length ∧
        ∀ (i : Nat) (hi : i < xs.length) (hj : i < ys.length),
          compareOutputs (xs.get ⟨i, hi⟩) (ys.get ⟨i, hj⟩) = true) := by
  rw [compareOutputs, Bool.and_eq_true]
  constructor
  · rintro ⟨h1, h2⟩
    have hlen : xs.length = ys.length := by simpa using h1
    exact ⟨hlen, (compareElems_iff xs ys hlen).mp h2⟩
  · rintro ⟨hlen, h⟩
    exact ⟨by simpa using hlen, (compareElems_iff xs ys hlen).mpr h⟩

theorem compareFields_iff (ae be : List (String × Json)) :
    compareFields ae be = true ↔
      ∀ kv ∈ ae, ∃ v, be.lookup kv.1 = some v ∧ compareOutputs kv.2 v = true := by
  induction ae with
  | nil => simp [compareFields]
  | cons kv rest ih =>
    rw [compareFields, Bool.and_eq_true, ih]
    constructor
    · rintro ⟨h1, h2⟩ kv' hkv'
      rcases List.mem_cons.mp hkv' with rfl | hmem
      · cases hl : be.lookup kv'.1 with
        | some v =>
          rw [hl] at h1
          exact ⟨v, rfl, h1⟩
        | none => rw [hl] at h1; simp at h1
      · exact h2 kv' hmem
    · intro h
      refine ⟨?_, fun kv' hm => h kv' (List.mem_cons_of_mem _ hm)⟩
      obtain ⟨v, hl, hc⟩ := h kv (List.mem_cons_self _ _)
      rw [hl]
      exact hc

theorem mem_keys_lookup {k : String} :
    ∀ {l : List (String × Json)}, k ∈ l.map Prod.fst → ∃ v, l.lookup k = some v := by
  intro l
  induction l with
  | nil => intro h; simp at h
  | cons kv rest ih =>
    obtain ⟨k1, v1⟩ := kv
    intro h
    rw [List.lookup]
    by_cases hk : k = k1
    · subst hk; simp
    · have hk' : (k == k1) = false := by simpa using hk
      rw [hk']
      apply ih
      simp only [List.map_cons, List.mem_cons] at h
      rcases h with h | h
      · exact absurd h hk
      · exact h

theorem lookup_eq_of_mem_nodup {k : String} {v : Json} :
    ∀ {l : List (String × Json)}, (l.map Prod.fst).Nodup → (k, v) ∈ l →
      l.lookup k = some v := by
  intro l
  induction l with
  | nil => intro _ hm; simp at hm
  | cons kv rest ih =>
    obtain ⟨k1, v1⟩ := kv
    intro hnd hm
    rw [List.map_cons] at hnd
    have hnd' := List.nodup_cons.mp hnd
    rw [List.lookup]
    rcases List.mem_cons.mp hm with heq | hmem
    · injection heq with h1 h2
      subst h1; subst h2
      simp
    · by_cases hk : k = k1
      · subst hk
        exact absurd (List.mem_map_of_mem Prod.fst hmem) hnd'.1
      · have hk' : (k == k1) = false := by simpa using hk
        rw [hk']
        exact ih hnd'.2 hmem

theorem compareOutputs_obj_iff (afs bfs : List (String × Json))
    (ha : (afs.map Prod.fst).Nodup) (hb : (bfs.map Prod.fst).Nodup) :
    compareOutputs (.obj afs) (.obj bfs) = true ↔
      ((afs.map Prod.fst).toFinset = (bfs.map Prod.fst).toFinset ∧
        ∀ (k : String) (va vb : Json), afs.lookup k = some va →
          bfs.lookup k = some vb → compareOutputs va vb = true) := by
  have hunfold : compareOutputs (.obj afs) (.obj bfs) =
      (afs.length == bfs.length && compareFields afs bfs) := by
    simp [compareOutputs, isObjLike, jsEntries]
  rw [hunfold, Bool.and_eq_true, compareFields_iff]
  constructor
  · rintro ⟨h1, h2⟩
    have hlen : afs.length = bfs.length := by simpa using h1
    have hsub : (afs.map Prod.fst).toFinset ⊆ (bfs.map Prod.fst).toFinset := by
      intro k hkmem
      rw [List.mem_toFinset] at hkmem ⊢
      obtain ⟨⟨k0, v0⟩, hmem, hfst⟩ := List.mem_map.mp hkmem
      obtain ⟨v, hl, _⟩ := h2 (k0, v0) hmem
      have hmm : (k0, v) ∈ bfs := lookup_mem hl
      have hin : k0 ∈ bfs.map Prod.fst := List.mem_map_of_mem Prod.fst hmm
      simp only [] at hfst
      subst hfst
      exact hin
    have hcard : (afs.map Prod.fst).toFinset.card = (bfs.map Prod.fst).toFinset.card := by
      rw [List.toFinset_card_of_nodup ha, List.toFinset_card_of_nodup hb]
      simpa using hlen
    refine ⟨Finset.eq_of_subset_of_card_le hsub (le_of_eq hcard.symm), ?_⟩
    intro k va vb hla hlb
    obtain ⟨v, hl, hc⟩ := h2 (k, va) (lookup_mem hla)
    rw [hl] at hlb
    injection hlb with hv
    subst hv
    exact hc
  · rintro ⟨hset, hpt⟩
    have hlen : afs.length = bfs.length := by
      have := congrArg Finset.card hset
      rw [List.toFinset_card_of_nodup ha, List.toFinset_card_of_nodup hb] at this
      simpa using this
    refine ⟨by simpa using hlen, ?_⟩
    intro kv hmem
    have hka : kv.1 ∈ afs.map Prod.fst := List.mem_map_of_mem Prod.fst hmem
    have hkb : kv.1 ∈ bfs.map Prod.fst := by
      have h1 : kv.1 ∈ (afs.map Prod.fst).toFinset := List.mem_toFinset.mpr hka
      rw [hset] at h1
      exact List.mem_toFinset.mp h1
    obtain ⟨vb, hlb⟩ := mem_keys_lookup hkb
    have hla : afs.lookup kv.1 = some kv.2 :=
      lookup_eq_of_mem_nodup ha (by simpa using hmem)
    exact ⟨vb, hlb, hpt kv.1 kv.2 vb hla hlb⟩

theorem compareOutputs_prim_iff (a b : Json)
    (hpa : isObjLike a = false) (hpb : isObjLike b = false) :
    (compareOutputs a b = true ↔ a = b) := by
  cases a <;> cases b <;>
    simp_all [compareOutputs, strictEq, isObjLike]

/-- C1: `compareOutputs` implements recursive structural equality: two arrays
compare equal exactly when they have the same length and are element-wise
equal by position; two objects compare equal exactly when their key sets
coincide and the values at each key are recursively equal, irrespective of
key order; primitives compare equal exactly when they are the same value.
In particular `[1,2,3] ~ [1,2,3]`, not `[1,2] ~ [2,1]`, and
`{a:1,b:2} ~ {b:2,a:1}`. -/
theorem C1_compareOutputs_structural_equality :
    (∀ xs ys : List Json,
      compareOutputs (.arr xs) (.arr ys) = true ↔
        (xs.length = ys.length ∧
          ∀ (i : Nat) (hi : i < xs.length) (hj : i < ys.length),
            compareOutputs (xs.get ⟨i, hi⟩) (ys.get ⟨i, hj⟩) = true)) ∧
    (∀ afs bfs : List (String × Json),
      (afs.map Prod.fst).Nodup → (bfs.map Prod.fst).Nodup →
      (compareOutputs (.obj afs) (.obj bfs) = true ↔
        ((afs.map Prod.fst).toFinset = (bfs.map Prod.fst).toFinset ∧
          ∀ (k : String) (va vb : Json), afs.lookup k = some va →
            bfs.lookup k = some vb → compareOutputs va vb = true))) ∧
    (∀ a b : Json, isObjLike a = false → isObjLike b = false →
      (compareOutputs a b = true ↔ a = b)) ∧
    compareOutputs (.arr [.num 1, .num 2, .num 3]) (.arr [.num 1, .num 2, .num 3]) = true ∧
    compareOutputs (.arr [.num 1, .num 2]) (.arr [.num 2, .num 1]) = false ∧
    compareOutputs (.obj [("a", .num 1), ("b", .num 2)])
      (.obj [("b", .num 2), ("a", .num 1)]) = true :=
  ⟨compareOutputs_arr_iff, compareOutputs_obj_iff, compareOutputs_prim_iff,
    by simp [compareOutputs, compareElems, strictEq, isObjLike, jsEntries, compareFields],
    by simp [compareOutputs, compareElems, strictEq, isObjLike, jsEntries, compareFields],
    by simp [compareOutputs, compareElems, strictEq, isObjLike, jsEntries,
      compareFields, List.lookup]⟩

/-- Witness for C1, instantiating the object clause at concrete inputs. -/
theorem C1_compareOutputs_structural_equality_witness :
    compareOutputs (.obj [("a", .num 1)]) (.obj [("a", .num 1)]) = true :=
  (C1_compareOutputs_structural_equality.2.1 [("a", .num 1)] [("a", .num 1)]
      (by simp) (by simp)).mpr
    ⟨rfl, by
      intro k va vb hva hvb
      by_cases hk : k = "a"
      · subst hk
        simp [List.lookup] at hva hvb
        subst hva
        subst hvb
        simp [compareOutputs, isObjLike, strictEq]
      · have hk' : (k == "a") = false := by simpa using hk
        rw [List.lookup, hk'] at hva
        simp [List.lookup] at hva⟩

/-! ## Sandbox executor: `CodeExecutionService.executeCode` -/

/-- Result shape of `executeCode`: `{ output, error? }`. -/
structure ExecResult where
  output : String
  error : Option String
deriving Repr, DecidableEq

/-- Behaviour of the child-process invocation (`execAsync`): either the
promise rejects (compile error, runtime exception, non-zero exit, timeout —
all surfaced by `child_process.exec` as a rejection carrying a message) or
it resolves with the captured stdout/stderr. -/
inductive ExecBehavior where
  | throws (msg : String)
  | resolves (stdout stderr : String)
deriving Repr, DecidableEq

/-- Filesystem / process effects successfully performed by `executeCode`,
in order. -/
inductive FsEffect where
  | mkdir (path : String)
  | write (path : String) (content : String)
  | exec (cmd : String)
deriving Repr, DecidableEq

/-- Environment of one `executeCode` invocation: the value of `Date.now()`
at entry and the outcome of each external operation (`mkdir`, `writeFile`,
`execAsync`), each of which may fail with a message. -/
structure ExecEnv where
  now : Nat
  mkdirFails : Option String
  writeFails : Option String
  execBehavior : ExecBehavior
deriving Repr, DecidableEq

/-- `SUPPORTED_LANGUAGES = ['javascript', 'python', 'java', 'cpp']`. -/
def SUPPORTED_LANGUAGES : List String := ["javascript", "python", "java", "cpp"]

/-- `FILE_EXTENSIONS` record; indexing a key that is absent yields
`undefined` (`none`), which is unreachable behind the language guard. -/
def FILE_EXTENSIONS (language : String) : Option String :=
  if language = "javascript" then some "js"
  else if language = "python" then some "py"
  else if language = "java" then some "java"
  else if language = "cpp" then some "cpp"
  else none

/-- `EXECUTION_COMMANDS` record of command templates. -/
def EXECUTION_COMMANDS (language : String) : Option String :=
  if language = "javascript" then some "node {file}"
  else if language = "python" then some "python3 {file}"
  else if language = "java" then some "javac {file} && java {className}"
  else if language = "cpp" then some "g++ {file} -o {executable} && ./{executable}"
  else none

/-- JS `String.prototype.replace` with a string pattern replaces only the
first occurrence (so the second `{executable}` in the cpp template is left
in place by the source code). -/
def jsReplaceFirst (s pat repl : String) : String :=
  match s.splitOn pat with
  | [] => s
  | [_] => s
  | a :: rest => a ++ repl ++ String.intercalate pat rest

/-- Body of `executeCode` after the language guard has passed: create the
per-invocation scratch directory `/tmp/code-execution/<Date.now()>`, write
`solution.<ext>`, build the command from the template and run it.  The
`try` block starts after `mkdir`, so a `mkdir` rejection propagates as an
exception while `writeFile` and `execAsync` rejections are caught and
returned as `{output: '', error: message}`. -/
def executeCodeRun (env : ExecEnv) (code language : String) :
    Except String ExecResult × List FsEffect :=
  let tempDir := "/tmp/code-execution/" ++ toString env.now
  match env.mkdirFails with
  | some msg => (Except.error msg, [])
  | none =>
    let fileExt := (FILE_EXTENSIONS language).getD ""
    let fileName := "solution." ++ fileExt
    let filePath := tempDir ++ "/" ++ fileName
    match env.writeFails with
    | some msg => (Except.ok { output := "", error := some msg }, [.mkdir tempDir])
    | none =>
      let command :=
        jsReplaceFirst (jsReplaceFirst (jsReplaceFirst
          ((EXECUTION_COMMANDS language).getD "") "{file}" filePath)
          "{className}" "Solution") "{executable}" (tempDir ++ "/solution")
      match env.execBehavior with
      | .throws msg =>
        (Except.ok { output := "", error := some msg },
          [.mkdir tempDir, .write filePath code, .exec command])
      | .resolves stdout stderr =>
        (Except.ok
            { output := stdout
              error := if stderr = "" then none else some stderr },
          [.mkdir tempDir, .write filePath code, .exec command])

/-- `CodeExecutionService.executeCode`.  `Except.error` models a thrown
exception / rejected promise; `Except.ok` a returned result.  The second
component is the trace of external effects that succeeded, in order. -/
def executeCode (env : ExecEnv) (code language : String)
    (input : Option String) : Except String ExecResult × List FsEffect :=
  if SUPPORTED_LANGUAGES.contains language then
    executeCodeRun env code language
  else
    (Except.error ("Unsupported language: " ++ language), [])

/-- C5: the supported language set is exactly
{python, javascript, java, cpp}; every other language identifier is
rejected with the unsupported-language error before any sandboxing work
(empty effect trace: no directory, no file, no process), and for a
supported language the rejection branch is not taken (the run proceeds to
the sandbox body). -/
theorem C5_supported_language_gate :
    (∀ l : String, SUPPORTED_LANGUAGES.contains l = true ↔
      (l = "python" ∨ l = "javascript" ∨ l = "java" ∨ l = "cpp")) ∧
    (∀ (env : ExecEnv) (code l : String) (input : Option String),
      SUPPORTED_LANGUAGES.contains l = false →
      executeCode env code l input =
        (Except.error ("Unsupported language: " ++ l), [])) ∧
    (∀ (env : ExecEnv) (code l : String) (input : Option String),
      SUPPORTED_LANGUAGES.contains l = true →
      executeCode env code l input = executeCodeRun env code l) := by
  refine ⟨?_, ?_, ?_⟩
  · intro l
    simp [SUPPORTED_LANGUAGES]
    tauto
  · intro env code l input h
    have h' : l ∉ SUPPORTED_LANGUAGES := by simpa using h
    simp [executeCode, h']
  · intro env code l input h
    have h' : l ∈ SUPPORTED_LANGUAGES := by simpa using h
    simp [executeCode, h']

/-- Witness for C5 at concrete inputs: "ruby" is rejected with no effects,
"python" passes the gate. -/
theorem C5_supported_language_gate_witness :
    executeCode ⟨0, none, none, .resolves "" ""⟩ "x" "ruby" none =
      (Except.error "Unsupported language: ruby", []) ∧
    executeCode ⟨0, none, none, .resolves "" ""⟩ "x" "python" none =
      executeCodeRun ⟨0, none, none, .resolves "" ""⟩ "x" "python" :=
  ⟨C5_supported_language_gate.2.1 ⟨0, none, none, .resolves "" ""⟩ "x" "ruby" none
      (by decide),
    C5_supported_language_gate.2.2 ⟨0, none, none, .resolves "" ""⟩ "x" "python" none
      (by decide)⟩

/-- Counterexample to C6: a run in which writing the source file fails
(with message m) is observationally identical to a run in which the
submitted code itself crashes (with message m) — both return
`{output: '', error: m}`, so the two failure classes are not surfaced
distinctly. -/
theorem C6_counterexample_write_failure_indistinguishable :
    (executeCode ⟨1000, none, some "EACCES: permission denied",
        .resolves "" ""⟩ "print(1)" "python" none).1 =
    (executeCode ⟨1000, none, none,
        .throws "EACCES: permission denied"⟩ "print(1)" "python" none).1 := by
  rfl

/-- C6 (amended): only unsupported-language requests and scratch-directory
creation (`mkdir`) failures escape `executeCode` as exceptions; a failure
to write the source file is caught by the same handler as a code-level
failure and returned in the same `{output: '', error: message}` shape —
observationally identical to a run where the submitted code crashes with
the same message. -/
theorem C6_amended_write_failure_not_distinct :
    (∀ (env : ExecEnv) (code l : String) (input : Option String) (msg : String),
      SUPPORTED_LANGUAGES.contains l = true → env.mkdirFails = some msg →
      (executeCode env code l input).1 = Except.error msg) ∧
    (∀ (env : ExecEnv) (code l : String) (input : Option String) (msg : String),
      SUPPORTED_LANGUAGES.contains l = true → env.mkdirFails = none →
      env.writeFails = some msg →
      (executeCode env code l input).1 = Except.ok { output := "", error := some msg } ∧
      (executeCode { env with writeFails := none, execBehavior := .throws msg }
          code l input).1 = Except.ok { output := "", error := some msg }) := by
  constructor
  · intro env code l input msg hl hm
    have hl' : l ∈ SUPPORTED_LANGUAGES := by simpa using hl
    simp [executeCode, hl', executeCodeRun, hm]
  · intro env code l input msg hl hm hw
    have hl' : l ∈ SUPPORTED_LANGUAGES := by simpa using hl
    constructor
    · simp [executeCode, hl', executeCodeRun, hm, hw]
    · simp [executeCode, hl', executeCodeRun, hm]

/-- Witness for the amended C6 at concrete inputs. -/
theorem C6_amended_write_failure_not_distinct_witness :
    (executeCode ⟨7, some "ENOSPC", none, .resolves "" ""⟩ "x" "cpp" none).1 =
      Except.error "ENOSPC" ∧
    (executeCode ⟨7, none, some "EIO", .resolves "" ""⟩ "x" "cpp" none).1 =
      Except.ok { output := "", error := some "EIO" } :=
  ⟨C6_amended_write_failure_not_distinct.1 ⟨7, some "ENOSPC", none, .resolves "" ""⟩
      "x" "cpp" none "ENOSPC" (by decide) rfl,
    (C6_amended_write_failure_not_distinct.2 ⟨7, none, some "EIO", .resolves "" ""⟩
      "x" "cpp" none "EIO" (by decide) rfl rfl).1⟩

/-- C7 fails on the code: the scratch directory is derived solely from
`Date.now()`, so any two invocations that start in the same wall-clock
millisecond create and use the same directory, whatever their code,
language or other environment — scratch locations are shared between
concurrent runs instead of being unique per invocation. -/
theorem C7_scratch_dir_depends_only_on_timestamp :
    ∀ (env1 env2 : ExecEnv) (code1 code2 l1 l2 : String)
      (i1 i2 : Option String),
      SUPPORTED_LANGUAGES.contains l1 = true →
      SUPPORTED_LANGUAGES.contains l2 = true →
      env1.mkdirFails = none → env2.mkdirFails = none →
      env1.now = env2.now →
      (executeCode env1 code1 l1 i1).2.head? =
        some (.mkdir ("/tmp/code-execution/" ++ toString env1.now)) ∧
      (executeCode env2 code2 l2 i2).2.head? =
        some (.mkdir ("/tmp/code-execution/" ++ toString env1.now)) := by
  intro env1 env2 code1 code2 l1 l2 i1 i2 h1 h2 hm1 hm2 hnow
  have h1' : l1 ∈ SUPPORTED_LANGUAGES := by simpa using h1
  have h2' : l2 ∈ SUPPORTED_LANGUAGES := by simpa using h2
  obtain ⟨n1, m1, w1, e1⟩ := env1
  obtain ⟨n2, m2, w2, e2⟩ := env2
  simp only [ExecEnv.mkdirFails] at hm1 hm2
  simp only [ExecEnv.now] at hnow ⊢
  subst hm1
  subst hm2
  subst hnow
  constructor
  · cases w1 with
    | some m => simp [executeCode, h1', executeCodeRun]
    | none => cases e1 <;> simp [executeCode, h1', executeCodeRun]
  · cases w2 with
    | some m => simp [executeCode, h2', executeCodeRun]
    | none => cases e2 <;> simp [executeCode, h2', executeCodeRun]

/-- Witness for C7: two same-millisecond invocations with different code
and language both use `/tmp/code-execution/1700000000000`. -/
theorem C7_scratch_dir_depends_only_on_timestamp_witness :
    (executeCode ⟨1700000000000, none, none, .resolves "ok" ""⟩
        "print(1)" "python" none).2.head? =
      some (.mkdir "/tmp/code-execution/1700000000000") ∧
    (executeCode ⟨1700000000000, none, none, .throws "boom"⟩
        "console.log(2)" "javascript" none).2.head? =
      some (.mkdir "/tmp/code-execution/1700000000000") :=
  C7_scratch_dir_depends_only_on_timestamp
    ⟨1700000000000, none, none, .resolves "ok" ""⟩
    ⟨1700000000000, none, none, .throws "boom"⟩
    "print(1)" "console.log(2)" "python" "javascript" none none
    (by decide) (by decide) rfl rfl rfl

/-! ## Test case runner: `CodeExecutionService.testCode` -/

/-- One test case `{input, expectedOutput}` of a coding problem. -/
structure TestCase where
  input : Json
  expectedOutput : Json

/-- One entry of `testCode`'s results: the spread test case plus `passed`,
`actualOutput` (`null` when the case errored) and `error`. -/
structure CaseResult where
  testCase : TestCase
  passed : Bool
  actualOutput : Option Json
  error : Option String

/-- Aggregate result of `testCode`. -/
structure TestOutcome where
  passed : Bool
  results : List CaseResult

/-- Observed behaviour of one `await executeCode(...)` call inside the
test-case loop: a thrown exception (unsupported language, mkdir failure, or
any other fault of the body) or a returned `{output, error}`. -/
inductive RunBehavior where
  | throws (msg : String)
  | returns (output : String) (error : Option String)

/-- JS truthiness of the `error` field in `if (error)`: `undefined` and the
empty string are falsy, any other string is truthy. -/
def strTruthy : Option String → Bool
  | none => false
  | some s => s ≠ ""

/-- The body of one iteration of `testCode`'s loop: an exception or a
truthy `error` yields a failed entry with the error attached and a `null`
`actualOutput`; otherwise the output is parsed and compared against
`expectedOutput`. -/
def caseEntry (b : RunBehavior) (parse : String → Json) (tc : TestCase) :
    CaseResult :=
  match b with
  | .throws msg =>
    { testCase := tc, passed := false, actualOutput := none, error := some msg }
  | .returns output error =>
    if strTruthy error then
      { testCase := tc, passed := false, actualOutput := none, error := error }
    else
      let parsedOutput := parse output
      { testCase := tc
        passed := compareOutputs parsedOutput tc.expectedOutput
        actualOutput := some parsedOutput
        error := none }

/-- The per-case loop of `testCode`: one entry per test case, in order;
`exec i` is the behaviour of the i-th `executeCode` invocation and `parse`
models `parseOutput` (structured-literal parse falling back to the raw
trimmed string). -/
def runCases (exec : Nat → RunBehavior) (parse : String → Json) :
    Nat → List TestCase → List CaseResult
  | _, [] => []
  | i, tc :: rest => caseEntry (exec i) parse tc :: runCases exec parse (i + 1) rest

/-- `CodeExecutionService.testCode`: run every case (no abort), collect the
entries, and report `passed` as the conjunction of the per-case flags
(the `allPassed` accumulator of the source). -/
def testCode (exec : Nat → RunBehavior) (parse : String → Json)
    (testCases : List TestCase) : TestOutcome :=
  let results := runCases exec parse 0 testCases
  { passed := results.all (·.passed), results := results }

theorem runCases_length (exec : Nat → RunBehavior) (parse : String → Json) :
    ∀ (cases : List TestCase) (n : Nat),
      (runCases exec parse n cases).length = cases.length := by
  intro cases
  induction cases with
  | nil => intro n; simp [runCases]
  | cons tc rest ih => intro n; simp [runCases, ih]

theorem runCases_get (exec : Nat → RunBehavior) (parse : String → Json) :
    ∀ (cases : List TestCase) (n j : Nat)
      (hj : j < (runCases exec parse n cases).length) (hc : j < cases.length),
      (runCases exec parse n cases).get ⟨j, hj⟩ =
        caseEntry (exec (n + j)) parse (cases.get ⟨j, hc⟩) := by
  intro cases
  induction cases with
  | nil => intro n j hj hc; simp at hc
  | cons tc rest ih =>
    intro n j hj hc
    cases j with
    | zero => simp [runCases]
    | succ m =>
      have hj' : m < (runCases exec parse (n + 1) rest).length := by
        simpa [runCases] using hj
      have hc' : m < rest.length := by simpa using hc
      have hrec := ih (n + 1) m hj' hc'
      have hidx : n + 1 + m = n + (m + 1) := by omega
      rw [hidx] at hrec
      simpa [runCases] using hrec

/-- C2: `testCode` produces exactly one result entry per test case, in
input order; a case whose executor invocation throws, or returns a truthy
error, yields `passed = false` with the error attached while every other
case still gets its own entry (no fail-fast abort, faults never escape the
runner); and the aggregate `passed` holds exactly when every per-case
entry passed. -/
theorem C2_testCode_runs_all_cases :
    ∀ (exec : Nat → RunBehavior) (parse : String → Json)
      (cases : List TestCase),
      ((testCode exec parse cases).results.length = cases.length) ∧
      (∀ (i : Nat) (hi : i < (testCode exec parse cases).results.length)
        (hc : i < cases.length),
        ((testCode exec parse cases).results.get ⟨i, hi⟩).testCase =
            cases.get ⟨i, hc⟩ ∧
        (∀ msg, exec i = .throws msg →
          ((testCode exec parse cases).results.get ⟨i, hi⟩).passed = false ∧
          ((testCode exec parse cases).results.get ⟨i, hi⟩).error = some msg) ∧
        (∀ out e, exec i = .returns out (some e) → e ≠ "" →
          ((testCode exec parse cases).results.get ⟨i, hi⟩).passed = false ∧
          ((testCode exec parse cases).results.get ⟨i, hi⟩).error = some e)) ∧
      ((testCode exec parse cases).passed = true ↔
        ∀ r ∈ (testCode exec parse cases).results, r.passed = true) := by
  intro exec parse cases
  refine ⟨runCases_length exec parse cases 0, ?_, ?_⟩
  · intro i hi hc
    have hget := runCases_get exec parse cases 0 i (by simpa [testCode] using hi) hc
    have hget' : (testCode exec parse cases).results.get ⟨i, by simpa [testCode] using hi⟩ =
        caseEntry (exec i) parse (cases.get ⟨i, hc⟩) := by
      simpa [testCode] using hget
    refine ⟨?_, ?_, ?_⟩
    · rw [hget']
      cases hb : exec i with
      | throws msg => simp [caseEntry]
      | returns out e =>
        simp only [caseEntry]
        by_cases ht : strTruthy e = true
        · simp [ht]
        · simp [ht]
    · intro msg hb
      rw [hget', hb]
      simp [caseEntry]
    · intro out e hb he
      rw [hget', hb]
      have ht : strTruthy (some e) = true := by simpa [strTruthy] using he
      simp [caseEntry, ht]
  · simp [testCode, List.all_eq_true]

/-- Witness for C2: with two cases of which the first throws "boom", the
first entry is failed with the error attached (and the second case still
ran, the results list having length 2). -/
theorem C2_testCode_runs_all_cases_witness :
    (testCode
        (fun i => if i = 0 then RunBehavior.throws "boom"
          else RunBehavior.returns "1" none)
        (fun _ => Json.num 1)
        [⟨.num 0, .num 1⟩, ⟨.num 0, .num 1⟩]).results.length = 2 ∧
    ((testCode
        (fun i => if i = 0 then RunBehavior.throws "boom"
          else RunBehavior.returns "1" none)
        (fun _ => Json.num 1)
        [⟨.num 0, .num 1⟩, ⟨.num 0, .num 1⟩]).results.get
        ⟨0, by simp [testCode, runCases]⟩).error = some "boom" :=
  ⟨(C2_testCode_runs_all_cases
      (fun i => if i = 0 then RunBehavior.throws "boom"
        else RunBehavior.returns "1" none)
      (fun _ => Json.num 1)
      [⟨.num 0, .num 1⟩, ⟨.num 0, .num 1⟩]).1,
    (((C2_testCode_runs_all_cases
      (fun i => if i = 0 then RunBehavior.throws "boom"
        else RunBehavior.returns "1" none)
      (fun _ => Json.num 1)
      [⟨.num 0, .num 1⟩, ⟨.num 0, .num 1⟩]).2.1 0
      (by simp [testCode, runCases]) (by simp)).2.1 "boom" rfl).2⟩

/-! ## JS number arithmetic where NaN / Infinity are reachable -/

/-- A JS `number` as produced by the scoring arithmetic: an exact rational,
`NaN` (from `0/0`), or a signed infinity (from `x/0` with `x ≠ 0`).
Ordinary binary rounding of floats is idealised away: the reachable scores
are small integers and exact fractions. -/
inductive JsNum where
  | nan : JsNum
  | posInf : JsNum
  | negInf : JsNum
  | fin (q : ℚ) : JsNum
deriving Repr, DecidableEq

/-- JS `/` on two finite numbers. -/
def jsDiv (a b : ℚ) : JsNum :=
  if b = 0 then
    if a = 0 then .nan else if 0 < a then .posInf else .negInf
  else .fin (a / b)

/-- JS `*` of a number by a finite constant. -/
def jsMulQ : JsNum → ℚ → JsNum
  | .nan, _ => .nan
  | .posInf, c => if c = 0 then .nan else if 0 < c then .posInf else .negInf
  | .negInf, c => if c = 0 then .nan else if 0 < c then .negInf else .posInf
  | .fin a, c => .fin (a * c)

/-- `Math.round`: round half toward positive infinity on finite values;
`NaN` and the infinities propagate. -/
def jsRound : JsNum → JsNum
  | .fin q => .fin ((round q : ℤ) : ℚ)
  | x => x

/-- JS `+` on numbers. -/
def jsAdd : JsNum → JsNum → JsNum
  | .nan, _ => .nan
  | _, .nan => .nan
  | .posInf, .negInf => .nan
  | .negInf, .posInf => .nan
  | .posInf, _ => .posInf
  | _, .posInf => .posInf
  | .negInf, _ => .negInf
  | _, .negInf => .negInf
  | .fin a, .fin b => .fin (a + b)

theorem jsAdd_zero (x : JsNum) : jsAdd x (.fin 0) = x := by
  cases x <;> simp [jsAdd]

/-- JS `x || d` for an optional numeric field: `undefined` and `0` are
falsy, so a stored `points: 0` also falls back to the default. -/
def jsOrNum (x : Option ℚ) (d : ℚ) : ℚ :=
  match x with
  | none => d
  | some p => if p = 0 then d else p

/-! ## Submission store: `SubmissionModel` -/

/-- `SubmissionStatus = 'pending' | 'completed' | 'failed'`. -/
inductive SubmissionStatus where
  | pending
  | completed
  | failed
deriving Repr, DecidableEq

/-- `InsertSubmission`: the data supplied to `SubmissionModel.create` by its
caller, including a caller-chosen `status`.  `ρ` is the opaque type of the
`results` payload. -/
structure InsertSubmission (ρ : Type) where
  userId : Int
  problemId : Option Int
  testId : Option Int
  code : String
  language : String
  status : SubmissionStatus
  results : Option ρ

/-- A stored `Submission` record: the insert data plus the assigned `id`
and the `createdAt` timestamp. -/
structure StoredSubmission (ρ : Type) where
  id : Nat
  userId : Int
  problemId : Option Int
  testId : Option Int
  code : String
  language : String
  status : SubmissionStatus
  results : Option ρ
  createdAt : Nat

/-- The private static state of `SubmissionModel`: the id-keyed `Map`
(insertion-ordered associations, as a JS `Map`) and `submissionIdCounter`
(initially 1). -/
structure StoreState (ρ : Type) where
  submissions : List (Nat × StoredSubmission ρ)
  submissionIdCounter : Nat

/-- The empty store, as the class initialises it. -/
def initialStore (ρ : Type) : StoreState ρ :=
  { submissions := [], submissionIdCounter := 1 }

/-- JS `Map.prototype.set`: replace in place when the key exists, append
otherwise. -/
def mapSet {α : Type} : List (Nat × α) → Nat → α → List (Nat × α)
  | [], k, v => [(k, v)]
  | (k1, v1) :: rest, k, v =>
    if k1 = k then (k, v) :: rest else (k1, v1) :: mapSet rest k v

/-- `SubmissionModel.create`: assign `id = counter++`, stamp `createdAt`,
and store the record with exactly the caller-supplied fields — including
the caller-supplied `status`; nothing forces `'pending'`. -/
def storeCreate {ρ : Type} (s : StoreState ρ) (d : InsertSubmission ρ)
    (now : Nat) : StoredSubmission ρ × StoreState ρ :=
  let id := s.submissionIdCounter
  let sub : StoredSubmission ρ :=
    { id := id
      userId := d.userId
      problemId := d.problemId
      testId := d.testId
      code := d.code
      language := d.language
      status := d.status
      results := d.results
      createdAt := now }
  (sub,
    { submissions := mapSet s.submissions id sub
      submissionIdCounter := id + 1 })

/-- `SubmissionModel.update`: look the record up; when present, replace it
with a copy carrying the new `status` and `results || submission.results`
(an object is always truthy, `undefined` falsy); the record is never
removed. -/
def storeUpdate {ρ : Type} (s : StoreState ρ) (id : Nat)
    (status : SubmissionStatus) (results : Option ρ) :
    Option (StoredSubmission ρ) × StoreState ρ :=
  match s.submissions.lookup id with
  | none => (none, s)
  | some sub =>
    let updated : StoredSubmission ρ :=
      { sub with
          status := status
          results := match results with
                     | some r => some r
                     | none => sub.results }
    (some updated, { s with submissions := mapSet s.submissions id updated })

/-- The store operations the grading pipeline performs. -/
inductive StoreOp (ρ : Type) where
  | create (d : InsertSubmission ρ) (now : Nat)
  | update (id : Nat) (status : SubmissionStatus) (results : Option ρ)

def stepStore {ρ : Type} (s : StoreState ρ) : StoreOp ρ → StoreState ρ
  | .create d now => (storeCreate s d now).2
  | .update id st r => (storeUpdate s id st r).2

def runStore {ρ : Type} (s : StoreState ρ) : List (StoreOp ρ) → StoreState ρ
  | [] => s
  | op :: ops => runStore (stepStore s op) ops

/-! ## Grading engine: `TestService.submitCodingTest` -/

/-- One coding question of a test: `{id, points?, testCases}`. -/
structure CodingQuestion where
  id : Int
  points : Option ℚ
  testCases : List TestCase

/-- One element of `submitCodingTest`'s `submissions` argument. -/
structure CodingSubmission where
  problemId : Int
  code : String
  language : String

/-- One per-problem entry of `submitCodingTest`'s results array (the union
of the not-found shape and the graded shape). -/
structure CodingSubResult where
  problemId : Int
  passed : Bool
  score : JsNum
  maxScore : Option ℚ
  error : Option String
  results : Option (List CaseResult)

/-- Outcome of `submitCodingTest`: the returned object plus the trace of
`SubmissionModel.create` calls performed along the way. -/
structure CodingOutcome where
  score : JsNum
  maxScore : ℚ
  results : List CodingSubResult
  storeOps : List (StoreOp TestOutcome)

/-- The per-submission loop of `submitCodingTest`.  `execF i` is the
executor behaviour backing the i-th submission's `testCode` run.  In this
model the loop body cannot throw — `testCode` is total and the in-memory
store does not fail — so the catch branch that would record a `failed`
submission is unreachable and not modelled. -/
def codingLoop (execF : Nat → Nat → RunBehavior) (parse : String → Json)
    (questions : List CodingQuestion) (userId testId : Int) (now : Nat) :
    Nat → JsNum → ℚ → List CodingSubmission →
      JsNum × ℚ × List CodingSubResult × List (StoreOp TestOutcome)
  | _, totalScore, maxScore, [] => (totalScore, maxScore, [], [])
  | i, totalScore, maxScore, sub :: rest =>
    match questions.find? (fun q => q.id == sub.problemId) with
    | none =>
      let out := codingLoop execF parse questions userId testId now
        (i + 1) totalScore maxScore rest
      (out.1, out.2.1,
        { problemId := sub.problemId
          passed := false
          score := .fin 0
          maxScore := none
          error := some "Problem not found in test"
          results := none } :: out.2.2.1,
        out.2.2.2)
    | some problem =>
      let problemScore := jsOrNum problem.points 10
      let testResult := testCode (execF i) parse problem.testCases
      let passedCount := (testResult.results.filter (·.passed)).length
      let totalTests := testResult.results.length
      let earnedScore :=
        jsRound (jsMulQ (jsDiv (passedCount : ℚ) (totalTests : ℚ)) problemScore)
      let out := codingLoop execF parse questions userId testId now
        (i + 1) (jsAdd totalScore earnedScore) (maxScore + problemScore) rest
      (out.1, out.2.1,
        { problemId := sub.problemId
          passed := testResult.passed
          score := earnedScore
          maxScore := some problemScore
          error := none
          results := some testResult.results } :: out.2.2.1,
        StoreOp.create
          { userId := userId
            problemId := some sub.problemId
            testId := some testId
            code := sub.code
            language := sub.language
            status := .completed
            results := some testResult } now :: out.2.2.2)

/-- `TestService.submitCodingTest`, with the test record already fetched
and its questions parsed: grade each submission in order, accumulating
`score` and `maxScore` and storing one completed submission record per
graded problem. -/
def submitCodingTest (execF : Nat → Nat → RunBehavior) (parse : String → Json)
    (questions : List CodingQuestion) (userId testId : Int) (now : Nat)
    (submissions : List CodingSubmission) : CodingOutcome :=
  let out := codingLoop execF parse questions userId testId now
    0 (.fin 0) 0 submissions
  { score := out.1
    maxScore := out.2.1
    results := out.2.2.1
    storeOps := out.2.2.2 }

/-- The point value `submitCodingTest` attaches to a submission: the
matched question's `points || 10`, zero when no question of the test
matches its `problemId` (the code then adds nothing to `maxScore`). -/
def questionPoints (questions : List CodingQuestion) (s : CodingSubmission) : ℚ :=
  match questions.find? (fun q => q.id == s.problemId) with
  | none => 0
  | some q => jsOrNum q.points 10

/-- The spec's per-question scoring formula:
`round(points * passedCases / totalCases)`. -/
def specEarned (points : ℚ) (passedCases totalCases : Nat) : ℤ :=
  round (points * (passedCases : ℚ) / (totalCases : ℚ))

/-- The earned-score term the i-th submission contributes to `totalScore`
in the code (zero when its problem is not found, in which case the code
leaves the accumulator untouched). -/
def earnedJs (exec1 : Nat → RunBehavior) (parse : String → Json)
    (questions : List CodingQuestion) (s : CodingSubmission) : JsNum :=
  match questions.find? (fun q => q.id == s.problemId) with
  | none => .fin 0
  | some q =>
    let tr := testCode exec1 parse q.testCases
    jsRound (jsMulQ (jsDiv ((tr.results.filter (·.passed)).length : ℚ)
      (tr.results.length : ℚ)) (jsOrNum q.points 10))

/-- The indexed list of earned-score terms of a submission list. -/
def earnedTerms (execF : Nat → Nat → RunBehavior) (parse : String → Json)
    (questions : List CodingQuestion) : Nat → List CodingSubmission → List JsNum
  | _, [] => []
  | i, s :: rest =>
    earnedJs (execF i) parse questions s ::
      earnedTerms execF parse questions (i + 1) rest

/-- The indexed list of the spec's earned points of a submission list
(zero for an unmatched problem). -/
def specTerms (execF : Nat → Nat → RunBehavior) (parse : String → Json)
    (questions : List CodingQuestion) : Nat → List CodingSubmission → List ℤ
  | _, [] => []
  | i, s :: rest =>
    (match questions.find? (fun q => q.id == s.problemId) with
     | none => 0
     | some q =>
       specEarned (jsOrNum q.points 10)
         ((testCode (execF i) parse q.testCases).results.filter (·.passed)).length
         (testCode (execF i) parse q.testCases).results.length) ::
      specTerms execF parse questions (i + 1) rest

theorem codingLoop_score (execF : Nat → Nat → RunBehavior) (parse : String → Json)
    (questions : List CodingQuestion) (userId testId : Int) (now : Nat) :
    ∀ (subs : List CodingSubmission) (i : Nat) (acc : JsNum) (m : ℚ),
      (codingLoop execF parse questions userId testId now i acc m subs).1 =
        List.foldl jsAdd acc (earnedTerms execF parse questions i subs) := by
  intro subs
  induction subs with
  | nil => intro i acc m; simp [codingLoop, earnedTerms]
  | cons s rest ih =>
    intro i acc m
    cases hf : questions.find? (fun q => q.id == s.problemId) with
    | none =>
      simp only [codingLoop, hf]
      rw [ih]
      simp [earnedTerms, earnedJs, hf, jsAdd_zero]
    | some q =>
      simp only [codingLoop, hf]
      rw [ih]
      simp [earnedTerms, earnedJs, hf]

theorem codingLoop_maxScore (execF : Nat → Nat → RunBehavior) (parse : String → Json)
    (questions : List CodingQuestion) (userId testId : Int) (now : Nat) :
    ∀ (subs : List CodingSubmission) (i : Nat) (acc : JsNum) (m : ℚ),
      (codingLoop execF parse questions userId testId now i acc m subs).2.1 =
        m + (subs.map (questionPoints questions)).sum := by
  intro subs
  induction subs with
  | nil => intro i acc m; simp [codingLoop]
  | cons s rest ih =>
    intro i acc m
    cases hf : questions.find? (fun q => q.id == s.problemId) with
    | none =>
      simp only [codingLoop, hf]
      rw [ih]
      simp [questionPoints, hf]
    | some q =>
      simp only [codingLoop, hf]
      rw [ih]
      simp [questionPoints, hf]
      ring

theorem foldl_jsAdd_fin : ∀ (qs : List ℚ) (t : ℚ),
    List.foldl jsAdd (.fin t) (qs.map JsNum.fin) = .fin (t + qs.sum) := by
  intro qs
  induction qs with
  | nil => intro t; simp
  | cons q rest ih =>
    intro t
    simp only [List.map_cons, List.foldl_cons, jsAdd, ih]
    congr 1
    simp
    ring

theorem foldl_jsAdd_of_nan : ∀ (l : List JsNum),
    List.foldl jsAdd .nan l = .nan := by
  intro l
  induction l with
  | nil => simp
  | cons x rest ih => simpa [jsAdd] using ih

theorem jsAdd_nan (t : JsNum) : jsAdd t .nan = .nan := by
  cases t <;> simp [jsAdd]

theorem foldl_jsAdd_nan : ∀ (l : List JsNum), JsNum.nan ∈ l →
    ∀ t, List.foldl jsAdd t l = .nan := by
  intro l
  induction l with
  | nil => intro h; simp at h
  | cons x rest ih =>
    intro h t
    rcases List.mem_cons.mp h with rfl | hm
    · simp only [List.foldl_cons, jsAdd_nan]
      exact foldl_jsAdd_of_nan rest
    · exact ih hm (jsAdd t x)

theorem sum_cast_int (l : List ℤ) :
    ((l.map (Int.cast : ℤ → ℚ)).sum) = ((l.sum : ℤ) : ℚ) := by
  induction l with
  | nil => simp
  | cons z rest ih =>
    rw [List.map_cons, List.sum_cons, List.sum_cons, ih]
    push_cast
    ring

theorem earnedJs_eq_specEarned (exec1 : Nat → RunBehavior)
    (parse : String → Json) (questions : List CodingQuestion)
    (s : CodingSubmission) (q : CodingQuestion)
    (hf : questions.find? (fun q2 => q2.id == s.problemId) = some q)
    (hne : q.testCases ≠ []) :
    earnedJs exec1 parse questions s =
      .fin ((specEarned (jsOrNum q.points 10)
        ((testCode exec1 parse q.testCases).results.filter (·.passed)).length
        (testCode exec1 parse q.testCases).results.length : ℚ)) := by
  unfold earnedJs
  rw [hf]
  have hlen : (testCode exec1 parse q.testCases).results.length =
      q.testCases.length := by
    simp [testCode, runCases_length]
  have hlen0 : (testCode exec1 parse q.testCases).results.length ≠ 0 := by
    rw [hlen]
    simpa using hne
  have hq0 : ((testCode exec1 parse q.testCases).results.length : ℚ) ≠ 0 := by
    exact_mod_cast hlen0
  simp only [jsDiv, hq0, if_false, jsMulQ, jsRound, specEarned]
  congr 2
  ring

/-- C3: each coding question carries a point value defaulting to 10 (the
`points || 10` of the matched question); the points a question earns are
`round(points * passedCases / totalCases)` (`specTerms`, the spec's
formula); the returned `score` is the sum of the earned points and the
returned `maxScore` is the sum of the per-question point values; and a
10-point question with 3 of 4 cases passing earns `round(10 * 3/4) = 8`. -/
theorem C3_submitCodingTest_scoring :
    (∀ (execF : Nat → Nat → RunBehavior) (parse : String → Json)
      (questions : List CodingQuestion) (userId testId : Int) (now : Nat)
      (subs : List CodingSubmission),
      (∀ s ∈ subs, ∀ q, questions.find? (fun q2 => q2.id == s.problemId) = some q →
        q.testCases ≠ []) →
      (submitCodingTest execF parse questions userId testId now subs).score =
        .fin ((specTerms execF parse questions 0 subs).sum : ℚ)) ∧
    (∀ (execF : Nat → Nat → RunBehavior) (parse : String → Json)
      (questions : List CodingQuestion) (userId testId : Int) (now : Nat)
      (subs : List CodingSubmission),
      (submitCodingTest execF parse questions userId testId now subs).maxScore =
        (subs.map (questionPoints questions)).sum) ∧
    specEarned 10 3 4 = 8 := by
  refine ⟨?_, ?_, ?_⟩
  · intro execF parse questions userId testId now subs hne
    have hterms : ∀ (l : List CodingSubmission) (i : Nat),
        (∀ s ∈ l, ∀ q, questions.find? (fun q2 => q2.id == s.problemId) = some q →
          q.testCases ≠ []) →
        earnedTerms execF parse questions i l =
          (specTerms execF parse questions i l).map
            (fun z : ℤ => JsNum.fin (z : ℚ)) := by
      intro l
      induction l with
      | nil => intro i _; simp [earnedTerms, specTerms]
      | cons s rest ih =>
        intro i hl
        have hs := fun q hq => hl s (List.mem_cons_self _ _) q hq
        have hrest := fun s2 hs2 => hl s2 (List.mem_cons_of_mem _ hs2)
        cases hf : questions.find? (fun q2 => q2.id == s.problemId) with
        | none =>
          simp only [earnedTerms, specTerms, hf]
          rw [ih (i + 1) hrest]
          simp [earnedJs, hf]
        | some q =>
          simp only [earnedTerms, specTerms, hf]
          rw [earnedJs_eq_specEarned (execF i) parse questions s q hf
            (hs q hf), ih (i + 1) hrest]
          simp
    simp only [submitCodingTest]
    rw [codingLoop_score, hterms subs 0 hne]
    have hcomp : (specTerms execF parse questions 0 subs).map
        (fun z : ℤ => JsNum.fin (z : ℚ)) =
        ((specTerms execF parse questions 0 subs).map (Int.cast : ℤ → ℚ)).map
          JsNum.fin := by
      rw [List.map_map]
      rfl
    rw [hcomp, foldl_jsAdd_fin, zero_add, sum_cast_int]
  · intro execF parse questions userId testId now subs
    simp only [submitCodingTest]
    rw [codingLoop_maxScore]
    simp
  · show round ((10 : ℚ) * (3 : ℚ) / (4 : ℚ)) = 8
    norm_num [round_eq]

/-- Witness for C3: one 10-point question (points omitted, so defaulted),
one test case that passes, earning `round(10 * 1/1) = 10`. -/
theorem C3_submitCodingTest_scoring_witness :
    (submitCodingTest (fun _ _ => RunBehavior.returns "1" none)
        (fun _ => Json.num 1) [⟨1, none, [⟨.null, .num 1⟩]⟩] 1 1 0
        [⟨1, "c", "python"⟩]).score = .fin 10 := by
  have h := C3_submitCodingTest_scoring.1 (fun _ _ => RunBehavior.returns "1" none)
    (fun _ => Json.num 1) [⟨1, none, [⟨.null, .num 1⟩]⟩] 1 1 0
    [⟨1, "c", "python"⟩]
    (by
      intro s hs q hq
      simp at hs
      subst hs
      simp [List.find?] at hq
      rw [← hq]
      simp)
  rw [h]
  have hspec : specTerms (fun _ _ => RunBehavior.returns "1" none)
      (fun _ => Json.num 1) [⟨1, none, [⟨.null, .num 1⟩]⟩] 0
      [⟨1, "c", "python"⟩] = [10] := by
    simp [specTerms, List.find?, testCode, runCases, caseEntry, strTruthy,
      specEarned, jsOrNum, compareOutputs, isObjLike, strictEq, jsEntries,
      round_eq]
  rw [hspec]
  norm_num

/-- The result entry `submitCodingTest` builds for one submission. -/
def codingEntry (exec1 : Nat → RunBehavior) (parse : String → Json)
    (questions : List CodingQuestion) (s : CodingSubmission) : CodingSubResult :=
  match questions.find? (fun q => q.id == s.problemId) with
  | none =>
    { problemId := s.problemId
      passed := false
      score := .fin 0
      maxScore := none
      error := some "Problem not found in test"
      results := none }
  | some q =>
    let tr := testCode exec1 parse q.testCases
    { problemId := s.problemId
      passed := tr.passed
      score := jsRound (jsMulQ (jsDiv ((tr.results.filter (·.passed)).length : ℚ)
        (tr.results.length : ℚ)) (jsOrNum q.points 10))
      maxScore := some (jsOrNum q.points 10)
      error := none
      results := some tr.results }

/-- The indexed list of result entries of a submission list. -/
def codingEntries (execF : Nat → Nat → RunBehavior) (parse : String → Json)
    (questions : List CodingQuestion) :
    Nat → List CodingSubmission → List CodingSubResult
  | _, [] => []
  | i, s :: rest =>
    codingEntry (execF i) parse questions s ::
      codingEntries execF parse questions (i + 1) rest

theorem codingLoop_results (execF : Nat → Nat → RunBehavior)
    (parse : String → Json) (questions : List CodingQuestion)
    (userId testId : Int) (now : Nat) :
    ∀ (subs : List CodingSubmission) (i : Nat) (acc : JsNum) (m : ℚ),
      (codingLoop execF parse questions userId testId now i acc m subs).2.2.1 =
        codingEntries execF parse questions i subs := by
  intro subs
  induction subs with
  | nil => intro i acc m; simp [codingLoop, codingEntries]
  | cons s rest ih =>
    intro i acc m
    cases hf : questions.find? (fun q => q.id == s.problemId) with
    | none =>
      simp only [codingLoop, hf]
      rw [ih]
      simp [codingEntries, codingEntry, hf]
    | some q =>
      simp only [codingLoop, hf]
      rw [ih]
      simp [codingEntries, codingEntry, hf]

theorem codingEntries_length (execF : Nat → Nat → RunBehavior)
    (parse : String → Json) (questions : List CodingQuestion) :
    ∀ (subs : List CodingSubmission) (n : Nat),
      (codingEntries execF parse questions n subs).length = subs.length := by
  intro subs
  induction subs with
  | nil => intro n; simp [codingEntries]
  | cons s rest ih => intro n; simp [codingEntries, ih]

theorem codingEntries_get (execF : Nat → Nat → RunBehavior)
    (parse : String → Json) (questions : List CodingQuestion) :
    ∀ (subs : List CodingSubmission) (n j : Nat)
      (hj : j < (codingEntries execF parse questions n subs).length)
      (hs : j < subs.length),
      (codingEntries execF parse questions n subs).get ⟨j, hj⟩ =
        codingEntry (execF (n + j)) parse questions (subs.get ⟨j, hs⟩) := by
  intro subs
  induction subs with
  | nil => intro n j hj hs; simp at hs
  | cons s rest ih =>
    intro n j hj hs
    cases j with
    | zero => simp [codingEntries]
    | succ m =>
      have hj' : m < (codingEntries execF parse questions (n + 1) rest).length := by
        simpa [codingEntries] using hj
      have hs' : m < rest.length := by simpa using hs
      have hrec := ih (n + 1) m hj' hs'
      have hidx : n + 1 + m = n + (m + 1) := by omega
      rw [hidx] at hrec
      simpa [codingEntries] using hrec

theorem earnedTerms_length (execF : Nat → Nat → RunBehavior)
    (parse : String → Json) (questions : List CodingQuestion) :
    ∀ (subs : List CodingSubmission) (n : Nat),
      (earnedTerms execF parse questions n subs).length = subs.length := by
  intro subs
  induction subs with
  | nil => intro n; simp [earnedTerms]
  | cons s rest ih => intro n; simp [earnedTerms, ih]

theorem earnedTerms_get (execF : Nat → Nat → RunBehavior)
    (parse : String → Json) (questions : List CodingQuestion) :
    ∀ (subs : List CodingSubmission) (n j : Nat)
      (hj : j < (earnedTerms execF parse questions n subs).length)
      (hs : j < subs.length),
      (earnedTerms execF parse questions n subs).get ⟨j, hj⟩ =
        earnedJs (execF (n + j)) parse questions (subs.get ⟨j, hs⟩) := by
  intro subs
  induction subs with
  | nil => intro n j hj hs; simp at hs
  | cons s rest ih =>
    intro n j hj hs
    cases j with
    | zero => simp [earnedTerms]
    | succ m =>
      have hj' : m < (earnedTerms execF parse questions (n + 1) rest).length := by
        simpa [earnedTerms] using hj
      have hs' : m < rest.length := by simpa using hs
      have hrec := ih (n + 1) m hj' hs'
      have hidx : n + 1 + m = n + (m + 1) := by omega
      rw [hidx] at hrec
      simpa [earnedTerms] using hrec

theorem earnedJs_nan_of_empty (exec1 : Nat → RunBehavior)
    (parse : String → Json) (questions : List CodingQuestion)
    (s : CodingSubmission) (q : CodingQuestion)
    (hf : questions.find? (fun q2 => q2.id == s.problemId) = some q)
    (hempty : q.testCases = []) :
    earnedJs exec1 parse questions s = .nan := by
  unfold earnedJs
  rw [hf]
  simp [hempty, testCode, runCases, jsDiv, jsMulQ, jsRound]

/-- C9: the per-question earned score is computed without guarding an
empty test-case list: `testCode` on no cases returns no results, the
division `passedCount / totalTests` is `0 / 0 = NaN`, and the earned score
of that question and the returned total `score` are `NaN` rather than an
integer. -/
theorem C9_empty_testCases_score_is_nan :
    (∀ (exec : Nat → RunBehavior) (parse : String → Json),
      (testCode exec parse []).results = []) ∧
    (∀ (execF : Nat → Nat → RunBehavior) (parse : String → Json)
      (questions : List CodingQuestion) (userId testId : Int) (now : Nat)
      (subs : List CodingSubmission) (i : Nat) (hs : i < subs.length)
      (q : CodingQuestion),
      questions.find? (fun q2 => q2.id == (subs.get ⟨i, hs⟩).problemId) = some q →
      q.testCases = [] →
      ((submitCodingTest execF parse questions userId testId now subs).score =
          .nan ∧
        ∃ r, (submitCodingTest execF parse questions userId testId now
            subs).results.get? i = some r ∧ r.score = .nan)) := by
  constructor
  · intro exec parse
    simp [testCode, runCases]
  · intro execF parse questions userId testId now subs i hs q hf hempty
    constructor
    · have hlen : i < (earnedTerms execF parse questions 0 subs).length := by
        rw [earnedTerms_length]
        exact hs
      have hget := earnedTerms_get execF parse questions subs 0 i hlen hs
      rw [Nat.zero_add] at hget
      rw [earnedJs_nan_of_empty (execF i) parse questions _ q hf hempty] at hget
      have hmem : JsNum.nan ∈ earnedTerms execF parse questions 0 subs := by
        rw [← hget]
        exact List.get_mem _ _ _
      simp only [submitCodingTest]
      rw [codingLoop_score]
      exact foldl_jsAdd_nan _ hmem _
    · have hres : (submitCodingTest execF parse questions userId testId now
          subs).results = codingEntries execF parse questions 0 subs := by
        simp only [submitCodingTest]
        rw [codingLoop_results]
      have hr' : i < (codingEntries execF parse questions 0 subs).length := by
        rw [codingEntries_length]
        exact hs
      refine ⟨codingEntry (execF i) parse questions (subs.get ⟨i, hs⟩), ?_, ?_⟩
      · rw [hres, List.get?_eq_get hr',
          codingEntries_get execF parse questions subs 0 i hr' hs, Nat.zero_add]
      · unfold codingEntry
        rw [hf]
        simp [hempty, testCode, runCases, jsDiv, jsMulQ, jsRound]

/-- Witness for C9: a single question with an empty test-case list makes
the whole returned score `NaN`. -/
theorem C9_empty_testCases_score_is_nan_witness :
    (submitCodingTest (fun _ _ => RunBehavior.returns "1" none)
        (fun _ => Json.num 1) [⟨1, none, []⟩] 1 1 0
        [⟨1, "c", "python"⟩]).score = .nan :=
  (C9_empty_testCases_score_is_nan.2 (fun _ _ => RunBehavior.returns "1" none)
    (fun _ => Json.num 1) [⟨1, none, []⟩] 1 1 0 [⟨1, "c", "python"⟩]
    0 (by simp) ⟨1, none, []⟩ (by simp [List.find?]) rfl).1

/-! ## `TestService.submitMCQTest` -/

/-- One MCQ question: `{id, correctAnswerId}` (the stored correct option
index). -/
structure MCQQuestion where
  id : Int
  correctAnswerId : Int

/-- One element of the `answers` argument: `{questionId, answerId}`. -/
structure MCQAnswer where
  questionId : Int
  answerId : Int

/-- One entry of `submitMCQTest`'s results array (union of the
question-not-found shape and the graded shape). -/
structure MCQResultEntry where
  questionId : Int
  correct : Bool
  message : Option String
  correctAnswerId : Option Int
  selectedAnswerId : Option Int

/-- The returned object of `submitMCQTest`. -/
structure MCQOutcome where
  score : ℚ
  maxScore : ℚ
  percentageScore : JsNum
  results : List MCQResultEntry

/-- The per-answer loop of `submitMCQTest`; `acc` is the running
`totalScore` (10 added per correct answer, nothing de-duplicates repeated
`questionId`s). -/
def mcqLoop (questions : List MCQQuestion) :
    ℚ → List MCQAnswer → ℚ × List MCQResultEntry
  | acc, [] => (acc, [])
  | acc, a :: rest =>
    match questions.find? (fun q => q.id == a.questionId) with
    | none =>
      let out := mcqLoop questions acc rest
      (out.1,
        { questionId := a.questionId
          correct := false
          message := some "Question not found"
          correctAnswerId := none
          selectedAnswerId := none } :: out.2)
    | some q =>
      let correct := q.correctAnswerId == a.answerId
      let out := mcqLoop questions (if correct then acc + 10 else acc) rest
      (out.1,
        { questionId := a.questionId
          correct := correct
          message := none
          correctAnswerId := some q.correctAnswerId
          selectedAnswerId := some a.answerId } :: out.2)

/-- `TestService.submitMCQTest`, with the test fetched and its questions
parsed: 10 points per answer whose selected index equals the stored
correct index; `maxScore = questions.length * 10`;
`percentageScore = Math.round((totalScore / maxScore) * 100)`. -/
def submitMCQTest (questions : List MCQQuestion) (answers : List MCQAnswer) :
    MCQOutcome :=
  let maxScore : ℚ := (questions.length : ℚ) * 10
  let out := mcqLoop questions 0 answers
  { score := out.1
    maxScore := maxScore
    percentageScore := jsRound (jsMulQ (jsDiv out.1 maxScore) 100)
    results := out.2 }

/-- Whether an answer entry scores: its question is found in the test and
`question.correctAnswerId === answer.answerId`. -/
def answerCorrect (questions : List MCQQuestion) (a : MCQAnswer) : Bool :=
  match questions.find? (fun q => q.id == a.questionId) with
  | none => false
  | some q => q.correctAnswerId == a.answerId

theorem mcqLoop_score (questions : List MCQQuestion) :
    ∀ (answers : List MCQAnswer) (acc : ℚ),
      (mcqLoop questions acc answers).1 =
        acc + 10 * ((answers.filter (answerCorrect questions)).length : ℚ) := by
  intro answers
  induction answers with
  | nil => intro acc; simp [mcqLoop]
  | cons a rest ih =>
    intro acc
    cases hf : questions.find? (fun q => q.id == a.questionId) with
    | none =>
      simp only [mcqLoop, hf]
      rw [ih]
      have hc : answerCorrect questions a = false := by
        simp [answerCorrect, hf]
      simp [List.filter, hc]
    | some q =>
      simp only [mcqLoop, hf]
      by_cases hcorr : (q.correctAnswerId == a.answerId) = true
      · rw [if_pos hcorr, ih]
        have hc : answerCorrect questions a = true := by
          simp [answerCorrect, hf, hcorr]
        simp only [List.filter, hc]
        push_cast [List.length_cons]
        ring
      · rw [if_neg hcorr, ih]
        have hc : answerCorrect questions a = false := by
          simp only [answerCorrect, hf]
          simpa using hcorr
        simp [List.filter, hc]

/-- C4: each MCQ question is worth a fixed 10 points, earned exactly when
the selected option index equals the stored correct index; `maxScore` is
10 per question; `percentageScore = round(100 * score / maxScore)`; and in
the two-question scenario with one correct and one incorrect answer the
result is score 10, maxScore 20, percentageScore 50. -/
theorem C4_submitMCQTest_scoring :
    (∀ (questions : List MCQQuestion) (answers : List MCQAnswer),
      (submitMCQTest questions answers).score =
        10 * ((answers.filter (answerCorrect questions)).length : ℚ) ∧
      (submitMCQTest questions answers).maxScore = (questions.length : ℚ) * 10) ∧
    (∀ (questions : List MCQQuestion) (answers : List MCQAnswer),
      questions ≠ [] →
      (submitMCQTest questions answers).percentageScore =
        .fin ((round ((100 : ℚ) * (submitMCQTest questions answers).score /
          (submitMCQTest questions answers).maxScore) : ℤ) : ℚ)) ∧
    (submitMCQTest [⟨1, 2⟩, ⟨2, 3⟩] [⟨1, 2⟩, ⟨2, 1⟩]).score = 10 ∧
    (submitMCQTest [⟨1, 2⟩, ⟨2, 3⟩] [⟨1, 2⟩, ⟨2, 1⟩]).maxScore = 20 ∧
    (submitMCQTest [⟨1, 2⟩, ⟨2, 3⟩] [⟨1, 2⟩, ⟨2, 1⟩]).percentageScore =
      .fin 50 := by
  refine ⟨?_, ?_, ?_, ?_, ?_⟩
  · intro questions answers
    constructor
    · simp only [submitMCQTest]
      rw [mcqLoop_score]
      ring
    · simp [submitMCQTest]
  · intro questions answers hne
    have hq0 : ((questions.length : ℚ) * 10) ≠ 0 := by
      have : questions.length ≠ 0 := by simpa using hne
      have : (questions.length : ℚ) ≠ 0 := by exact_mod_cast this
      intro hcontra
      rcases mul_eq_zero.mp hcontra with h | h
      · exact this h
      · norm_num at h
    simp only [submitMCQTest, jsDiv, hq0, if_false, jsMulQ, jsRound]
    congr 2
    ring
  · simp [submitMCQTest, mcqLoop, List.find?]
  · simp [submitMCQTest]
    norm_num
  · simp [submitMCQTest, mcqLoop, List.find?, jsDiv, jsMulQ, jsRound]
    norm_num [round_eq]

/-- Witness for C4's percentage clause at a concrete one-question test. -/
theorem C4_submitMCQTest_scoring_witness :
    (submitMCQTest [⟨1, 2⟩] [⟨1, 2⟩]).percentageScore =
      .fin ((round ((100 : ℚ) * (submitMCQTest [⟨1, 2⟩] [⟨1, 2⟩]).score /
        (submitMCQTest [⟨1, 2⟩] [⟨1, 2⟩]).maxScore) : ℤ) : ℚ) :=
  C4_submitMCQTest_scoring.2.1 [⟨1, 2⟩] [⟨1, 2⟩] (by simp)

/-- C10: the MCQ scorer does not de-duplicate question ids — the score is
10 per matching answer entry, counting a repeated entry for the same
question again, while `maxScore` stays 10 per question; so a repeated
correct answer earns 20 points for one question and exceeds `maxScore`. -/
theorem C10_submitMCQTest_counts_repeats :
    (∀ (questions : List MCQQuestion) (answers : List MCQAnswer),
      (submitMCQTest questions answers).score =
        10 * ((answers.filter (answerCorrect questions)).length : ℚ) ∧
      (submitMCQTest questions answers).maxScore =
        (questions.length : ℚ) * 10) ∧
    (submitMCQTest [⟨1, 2⟩] [⟨1, 2⟩, ⟨1, 2⟩]).score = 20 ∧
    (submitMCQTest [⟨1, 2⟩] [⟨1, 2⟩, ⟨1, 2⟩]).maxScore = 10 ∧
    (submitMCQTest [⟨1, 2⟩] [⟨1, 2⟩, ⟨1, 2⟩]).maxScore <
      (submitMCQTest [⟨1, 2⟩] [⟨1, 2⟩, ⟨1, 2⟩]).score := by
  refine ⟨?_, ?_, ?_, ?_⟩
  · intro questions answers
    constructor
    · simp only [submitMCQTest]
      rw [mcqLoop_score]
      ring
    · simp [submitMCQTest]
  · simp [submitMCQTest, mcqLoop, List.find?]
    norm_num
  · simp [submitMCQTest]
  · simp [submitMCQTest, mcqLoop, List.find?]

/-! ## Store lifecycle -/

/-- Whether a store operation is an `update`. -/
def isUpdateOp {ρ : Type} : StoreOp ρ → Bool
  | .update .. => true
  | .create .. => false

/-- The statuses with which `create` operations store records, in order. -/
def createdStatuses {ρ : Type} (ops : List (StoreOp ρ)) : List SubmissionStatus :=
  ops.filterMap (fun op =>
    match op with
    | .create d _ => some d.status
    | .update .. => none)

/-- Counterexample to C8: grading a coding test creates its submission
record directly with status 'completed' — the first stored status of the
record is not 'pending' — and the pipeline performs no update at all, so
no 'pending' → 'completed' mutation ever happens. -/
theorem C8_counterexample_created_as_completed :
    createdStatuses ((submitCodingTest (fun _ _ => RunBehavior.returns "1" none)
        (fun _ => Json.num 1) [⟨1, none, [⟨.null, .num 1⟩]⟩] 1 1 0
        [⟨1, "c", "python"⟩]).storeOps) = [.completed] ∧
    ((submitCodingTest (fun _ _ => RunBehavior.returns "1" none)
        (fun _ => Json.num 1) [⟨1, none, [⟨.null, .num 1⟩]⟩] 1 1 0
        [⟨1, "c", "python"⟩]).storeOps).filter isUpdateOp = [] := by
  constructor
  · rfl
  · rfl

theorem nat_lookup_mem {α : Type} {k : Nat} {v : α} :
    ∀ {l : List (Nat × α)}, l.lookup k = some v → (k, v) ∈ l := by
  intro l
  induction l with
  | nil => intro h; simp [List.lookup] at h
  | cons p rest ih =>
    obtain ⟨k1, v1⟩ := p
    intro h
    rw [List.lookup] at h
    by_cases hk : k = k1
    · subst hk
      simp at h
      simp [h]
    · have hk' : (k == k1) = false := by simpa using hk
      rw [hk'] at h
      exact List.mem_cons_of_mem _ (ih h)

theorem lookup_isSome_mapSet {α : Type} (k : Nat) (v : α) (id : Nat) :
    ∀ (l : List (Nat × α)), (l.lookup id).isSome = true →
      ((mapSet l k v).lookup id).isSome = true := by
  intro l
  induction l with
  | nil => intro h; simp [List.lookup] at h
  | cons p rest ih =>
    obtain ⟨k1, v1⟩ := p
    intro h
    by_cases hk1 : k1 = k
    · subst hk1
      have hms : mapSet ((k1, v1) :: rest) k1 v = (k1, v) :: rest := by
        simp [mapSet]
      rw [hms]
      rw [List.lookup] at h ⊢
      cases hid : (id == k1) with
      | true => simp
      | false =>
        rw [hid] at h
        simpa using h
    · have hms : mapSet ((k1, v1) :: rest) k v = (k1, v1) :: mapSet rest k v := by
        simp [mapSet, hk1]
      rw [hms]
      rw [List.lookup] at h ⊢
      cases hid : (id == k1) with
      | true => simp
      | false =>
        rw [hid] at h
        simpa using ih h

theorem mapSet_append_of_forall_ne {α : Type} (k : Nat) (v : α) :
    ∀ (l : List (Nat × α)), (∀ p ∈ l, p.1 ≠ k) →
      mapSet l k v = l ++ [(k, v)] := by
  intro l
  induction l with
  | nil => intro _; simp [mapSet]
  | cons p rest ih =>
    obtain ⟨k1, v1⟩ := p
    intro h
    have hne : k1 ≠ k := h (k1, v1) (List.mem_cons_self _ _)
    have hrest : ∀ p ∈ rest, p.1 ≠ k :=
      fun p hp => h p (List.mem_cons_of_mem _ hp)
    simp [mapSet, hne, ih hrest]

theorem mapSet_keys_of_mem {α : Type} (k : Nat) (v : α) :
    ∀ (l : List (Nat × α)), k ∈ l.map Prod.fst →
      (mapSet l k v).map Prod.fst = l.map Prod.fst := by
  intro l
  induction l with
  | nil => intro h; simp at h
  | cons p rest ih =>
    obtain ⟨k1, v1⟩ := p
    intro h
    by_cases hk1 : k1 = k
    · subst hk1
      have hms : mapSet ((k1, v1) :: rest) k1 v = (k1, v) :: rest := by
        simp [mapSet]
      rw [hms]
      simp
    · have hms : mapSet ((k1, v1) :: rest) k v = (k1, v1) :: mapSet rest k v := by
        simp [mapSet, hk1]
      rw [hms]
      have hkm : k ∈ rest.map Prod.fst := by
        simp only [List.map_cons, List.mem_cons] at h
        rcases h with h | h
        · exact absurd h.symm hk1
        · exact h
      simp [ih hkm]

theorem mapSet_mem {α : Type} (k : Nat) (v : α) :
    ∀ (l : List (Nat × α)) (p : Nat × α), p ∈ mapSet l k v →
      p ∈ l ∨ p = (k, v) := by
  intro l
  induction l with
  | nil =>
    intro p hp
    simp [mapSet] at hp
    right
    simp [hp]
  | cons q rest ih =>
    obtain ⟨k1, v1⟩ := q
    intro p hp
    by_cases hk1 : k1 = k
    · subst hk1
      have hms : mapSet ((k1, v1) :: rest) k1 v = (k1, v) :: rest := by
        simp [mapSet]
      rw [hms] at hp
      rcases List.mem_cons.mp hp with rfl | hm
      · right; rfl
      · left; exact List.mem_cons_of_mem _ hm
    · have hms : mapSet ((k1, v1) :: rest) k v = (k1, v1) :: mapSet rest k v := by
        simp [mapSet, hk1]
      rw [hms] at hp
      rcases List.mem_cons.mp hp with rfl | hm
      · left; exact List.mem_cons_self _ _
      · rcases ih p hm with h | h
        · left; exact List.mem_cons_of_mem _ h
        · right; exact h

theorem stepStore_preserves {ρ : Type} (s : StoreState ρ) (op : StoreOp ρ)
    (hb : ∀ p ∈ s.submissions, p.1 < s.submissionIdCounter)
    (hn : (s.submissions.map Prod.fst).Nodup) :
    (∀ p ∈ (stepStore s op).submissions,
      p.1 < (stepStore s op).submissionIdCounter) ∧
    ((stepStore s op).submissions.map Prod.fst).Nodup := by
  cases op with
  | create d now =>
    have hfresh : ∀ p ∈ s.submissions, p.1 ≠ s.submissionIdCounter :=
      fun p hp => Nat.ne_of_lt (hb p hp)
    simp only [stepStore, storeCreate]
    rw [mapSet_append_of_forall_ne _ _ _ hfresh]
    constructor
    · intro p hp
      rcases List.mem_append.mp hp with h | h
      · exact Nat.lt_succ_of_lt (hb p h)
      · simp at h
        simp [h]
    · rw [List.map_append]
      apply List.Nodup.append hn (by simp)
      intro a ha hb2
      simp at hb2
      subst hb2
      obtain ⟨p, hp, hfst⟩ := List.mem_map.mp ha
      exact hfresh p hp hfst
  | update uid st r =>
    simp only [stepStore, storeUpdate]
    cases hl : s.submissions.lookup uid with
    | none => exact ⟨hb, hn⟩
    | some sub =>
      have hmem : (uid, sub) ∈ s.submissions := nat_lookup_mem hl
      have hkey : uid ∈ s.submissions.map Prod.fst :=
        List.mem_map_of_mem Prod.fst hmem
      constructor
      · intro p hp
        simp only [] at hp
        rcases mapSet_mem _ _ _ p hp with h | h
        · exact hb p h
        · subst h
          exact hb (uid, sub) hmem
      · simp only []
        rw [mapSet_keys_of_mem _ _ _ hkey]
        exact hn

/-- C8 (amended): `create` assigns the current counter as a fresh unique
id and stamps `createdAt`, but stores the caller-supplied status verbatim
(the grading pipeline passes 'completed' or 'failed' directly — there is
no 'pending' phase and no later mutation); no operation ever removes a
record: under any sequence of creates and updates every stored record
remains present and the stored ids stay distinct. -/
theorem C8_amended_store_lifecycle :
    (∀ (ρ : Type) (s : StoreState ρ) (d : InsertSubmission ρ) (now : Nat),
      (storeCreate s d now).1.status = d.status ∧
      (storeCreate s d now).1.id = s.submissionIdCounter ∧
      (storeCreate s d now).1.createdAt = now ∧
      (storeCreate s d now).2.submissionIdCounter = s.submissionIdCounter + 1) ∧
    (∀ (ρ : Type) (ops : List (StoreOp ρ)) (s : StoreState ρ) (id : Nat),
      (s.submissions.lookup id).isSome = true →
      ((runStore s ops).submissions.lookup id).isSome = true) ∧
    (∀ (ρ : Type) (ops : List (StoreOp ρ)) (s : StoreState ρ),
      (∀ p ∈ s.submissions, p.1 < s.submissionIdCounter) →
      (s.submissions.map Prod.fst).Nodup →
      ((runStore s ops).submissions.map Prod.fst).Nodup) := by
  refine ⟨?_, ?_, ?_⟩
  · intro ρ s d now
    exact ⟨rfl, rfl, rfl, rfl⟩
  · intro ρ ops
    induction ops with
    | nil => intro s id h; simpa [runStore] using h
    | cons op rest ih =>
      intro s id h
      rw [runStore]
      apply ih
      cases op with
      | create d now =>
        simp only [stepStore, storeCreate]
        exact lookup_isSome_mapSet _ _ _ _ h
      | update uid st r =>
        simp only [stepStore, storeUpdate]
        cases hl : s.submissions.lookup uid with
        | none => exact h
        | some sub =>
          simp only []
          exact lookup_isSome_mapSet _ _ _ _ h
  · intro ρ ops
    induction ops with
    | nil => intro s hb hn; simpa [runStore] using hn
    | cons op rest ih =>
      intro s hb hn
      rw [runStore]
      obtain ⟨hb', hn'⟩ := stepStore_preserves s op hb hn
      exact ih (stepStore s op) hb' hn'

/-- Witness for C8 (amended): a record created as 'pending' in a fresh
store survives a later update to 'failed' (nothing removes it). -/
theorem C8_amended_store_lifecycle_witness :
    (((runStore
        (storeCreate (initialStore Nat)
          ⟨7, none, none, "c", "python", .pending, none⟩ 5).2
        [.update 1 .failed none]).submissions.lookup 1).isSome = true) :=
  C8_amended_store_lifecycle.2.1 Nat [.update 1 .failed none]
    (storeCreate (initialStore Nat)
      ⟨7, none, none, "c", "python", .pending, none⟩ 5).2
    1 (by rfl)

end Skylearn
